import Mathlib

/-!
Verification of the seagliderOG1 dataset assembly and harmonization pipeline
(`seagliderOG1/fetchers.py` and `seagliderOG1/vocabularies.py`).

The Python functions are shallowly embedded as executable Lean definitions:
times and data values are modelled as integers, missing values (NaN) as
`none : Option Int`, xarray datasets as Lean structures of lists, and the
imperative loops as folds.  Each embedded definition mirrors one function of
the source; theorems below settle the frozen claims about them.
-/

/-! ## numpy `argmin` (first index attaining the minimum) -/

/-- numpy `argmin` over a list of naturals: index of the first occurrence of the
minimum value.  Returns 0 on the empty list (numpy raises there; all uses
below carry a nonemptiness hypothesis). -/
def argminList : List Nat → Nat
  | [] => 0
  | [_] => 0
  | x :: y :: ys =>
      if x ≤ (y :: ys).getD (argminList (y :: ys)) 0 then 0
      else argminList (y :: ys) + 1

/-! ## GPS aligner (`add_gps_coordinates`, fetchers.py lines 95-113) -/

/-- One GPS fix: the triple zipped in the source from `log_gps_time`,
`log_gps_lat`, `log_gps_lon` (fetchers.py line 108). -/
structure GpsFix where
  gps_time : Int
  gps_lat : Int
  gps_lon : Int
deriving DecidableEq, Repr

/-- The inner helper `find_nearest_index` (fetchers.py lines 97-100):
`np.abs(ds[ctd_time] - gps_time).argmin()`. -/
def find_nearest_index (ctd_time : List Int) (gps_time : Int) : Nat :=
  argminList (ctd_time.map (fun t => (t - gps_time).natAbs))

/-- The function `add_gps_coordinates` (fetchers.py lines 95-113): create three
measurement-axis-length arrays `gps_lat`, `gps_lon`, `gps_time` filled with
NaN (`none`), then for each fix in fix-axis order write its latitude,
longitude and time at the nearest measurement index.  Returns the triple
(gps_lat, gps_lon, gps_time). -/
def add_gps_coordinates (ctd_time : List Int) (fixes : List GpsFix) :
    List (Option Int) × List (Option Int) × List (Option Int) :=
  fixes.foldl
    (fun acc f =>
      (acc.1.set (find_nearest_index ctd_time f.gps_time) (some f.gps_lat),
       acc.2.1.set (find_nearest_index ctd_time f.gps_time) (some f.gps_lon),
       acc.2.2.set (find_nearest_index ctd_time f.gps_time) (some f.gps_time)))
    (List.replicate ctd_time.length none,
     List.replicate ctd_time.length none,
     List.replicate ctd_time.length none)

/-- The measurement index assigned to each fix, in fix-axis order. -/
def mappedIndices (ctd_time : List Int) (fixes : List GpsFix) : List Nat :=
  fixes.map (fun f => find_nearest_index ctd_time f.gps_time)

/-- Generic form of the write loop: starting from `init`, process a list of
(index, value) writes left to right, each `List.set` with `some value`. -/
def writeAll (init : List (Option Int)) (ws : List (Nat × Int)) :
    List (Option Int) :=
  ws.foldl (fun a w => a.set w.1 (some w.2)) init

/-! ## Dimension reconciler: `repeat_trajectory_vars` (fetchers.py 50-58) -/

/-- The trajectory variable as it arrives: its raw values and its `comment`
attribute. -/
structure TrajVar where
  values : List Int
  comment : String
deriving DecidableEq, Repr

/-- numpy broadcast of a 1-D array of values into a length-`n` array
(`ds[trajectory][:] = trajectory_var`, fetchers.py line 55): succeeds with the
array itself when lengths agree, repeats a single element, and otherwise
raises (`none`). -/
def broadcast_fill (src : List Int) (n : Nat) : Option (List Int) :=
  if src.length = n then some src
  else if src.length = 1 then some (List.replicate n (src.getD 0 0))
  else none

/-- The function `repeat_trajectory_vars` (fetchers.py lines 50-58): save the trajectory
values and comment, replace the variable by a measurement-axis-length array,
broadcast-assign the saved values into it, and restore the comment. `none`
models the numpy broadcast error. -/
def repeat_trajectory_vars (tv : TrajVar) (n : Nat) : Option TrajVar :=
  (broadcast_fill tv.values n).map (fun vs => { values := vs, comment := tv.comment })

/-! ## File selector (fetchers.py lines 60-76) -/

/-- A candidate directory entry: whether its name ends in `.nc`, and the
profile number parsed from the fixed-position substring of its name. -/
structure CandidateFile where
  ends_nc : Bool
  profile_number : Int
deriving DecidableEq, Repr

/-- The filter body of `load_dataset` (fetchers.py lines 63-76): keep a file
iff it ends in `.nc` and its profile number passes the four-branch
start/end test. -/
def keep_file (start_profile end_profile : Option Int) (f : CandidateFile) : Bool :=
  if f.ends_nc then
    match start_profile, end_profile with
    | some s, some e => decide (s ≤ f.profile_number) && decide (f.profile_number ≤ e)
    | some s, none => decide (f.profile_number ≥ s)
    | none, some e => decide (f.profile_number ≤ e)
    | none, none => true
  else false

/-- The list `filtered_files` accumulated by the loop of fetchers.py lines 63-76, in
directory-listing order. -/
def filtered_files (files : List CandidateFile) (start_profile end_profile : Option Int) :
    List CandidateFile :=
  files.filter (keep_file start_profile end_profile)

/-! ## Dimension dropping (fetchers.py line 87) -/

/-- A variable declaration: its name and the list of its dimensions. -/
structure VarDecl where
  name : String
  dims : List String
deriving DecidableEq, Repr

/-- The set of dimensions `set(ds.dims)`: all dimension names appearing in the variables of the dataset
(set modelled as a deduplicated list). -/
def ds_dims (vars : List VarDecl) : List String :=
  ((vars.map VarDecl.dims).flatten).dedup

/-- The method `xarray.Dataset.drop_dims`: removes every variable that uses any of the
given dimensions; variables using none of them (including dimensionless
scalars) are kept unchanged. -/
def drop_dims (vars : List VarDecl) (dropped : List String) : List VarDecl :=
  vars.filter (fun v => v.dims.all (fun d => !(decide (d ∈ dropped))))

/-- The call `ds.drop_dims(set(ds.dims).difference(["sg_data_point"]))`
(fetchers.py line 87). -/
def drop_non_sg (vars : List VarDecl) : List VarDecl :=
  drop_dims vars ((ds_dims vars).filter (fun d => !(decide (d = "sg_data_point"))))

/-! ## Trajectory assembler, row view (fetchers.py lines 90-91) -/

/-- One measurement-axis sample of the concatenated record, tagged with its
input record index and within-record position so that stability is
observable. -/
structure Sample where
  ctd_time : Int
  dive : Nat
  pos : Nat
deriving DecidableEq, Repr, Inhabited

/-- Insert into a list sorted by `key`, before the first element of
greater-or-equal key (the later-processed element goes first only when its
key is strictly smaller: stable). -/
def insertSorted (key : α → Int) (x : α) : List α → List α
  | [] => [x]
  | y :: ys => if key x ≤ key y then x :: y :: ys else y :: insertSorted key x ys

/-- Stable sort by an integer key; models `ds_all.sortby("ctd_time")`
(fetchers.py line 91), which is a stable sort (numpy lexsort). -/
def sortByKey (key : α → Int) : List α → List α
  | [] => []
  | x :: xs => insertSorted key x (sortByKey key xs)

/-- The assembly step of `load_dataset` (fetchers.py lines 90-91):
`xr.concat(datasets, dim="sg_data_point")` followed by
`ds_all.sortby("ctd_time")`, viewed on rows of records with identical
variable sets. -/
def assemble (recs : List (List Sample)) : List Sample :=
  sortByKey Sample.ctd_time recs.flatten

/-! ## Trajectory assembler, variable view (`xr.concat`) -/

/-- The variable table of one dive record: measurement-axis length and the
per-variable value arrays. -/
structure VarRecord where
  len : Nat
  vars : List (String × List Int)
deriving DecidableEq, Repr

/-- Union of variable names over all records (set modelled as a
deduplicated list). -/
def allVarNames (recs : List VarRecord) : List String :=
  ((recs.map (fun r => r.vars.map Prod.fst)).flatten).dedup

/-- The slice one record contributes for a variable name: its own values if
it has the variable, otherwise a NaN fill of its measurement-axis length
(`xr.concat` outer-join semantics, xarray >= 0.15). -/
def fillVar (r : VarRecord) (nm : String) : List (Option Int) :=
  match r.vars.lookup nm with
  | some vs => vs.map some
  | none => List.replicate r.len none

/-- The call `xr.concat(datasets, dim="sg_data_point")` (fetchers.py line 90):
raises on an empty input list (`none`); otherwise returns the combined
length and, for each variable name appearing anywhere, the concatenation of
the slice of each record with NaN fill for records lacking the variable. -/
def xr_concat (recs : List VarRecord) :
    Option (Nat × List (String × List (Option Int))) :=
  match recs with
  | [] => none
  | _ :: _ =>
      some ((recs.map VarRecord.len).sum,
        (allVarNames recs).map
          (fun nm => (nm, (recs.map (fun r => fillVar r nm)).flatten)))

/-! ## Unit-conversion table (vocabularies.py lines 27-39) -/

/-- The entries of the `unit_conversion` dict literal in source order,
including the duplicate key `dbar` (vocabularies.py lines 36 and 38). -/
def unit_conversion_entries : List (String × String × ℚ) :=
  [("cm/s", ("m/s", 1/100)),
   ("cm s-1", ("m s-1", 1/100)),
   ("m/s", ("cm/s", 100)),
   ("m s-1", ("cm s-1", 100)),
   ("S/m", ("mS/cm", 1/10)),
   ("S m-1", ("mS cm-1", 1/10)),
   ("mS/cm", ("S/m", 10)),
   ("mS cm-1", ("S m-1", 10)),
   ("dbar", ("Pa", 10000)),
   ("Pa", ("dbar", 1/10000)),
   ("dbar", ("kPa", 10))]

/-- The evaluated `unit_conversion` dict: Python dict-literal semantics give
the LAST entry for a repeated key. -/
def unit_conversion (u : String) : Option (String × ℚ) :=
  ((unit_conversion_entries.filter (fun e => e.1 == u)).getLast?).map Prod.snd

/-! ## Helper lemmas: `argminList` -/

theorem argminList_cons_cons (x y : Nat) (ys : List Nat) :
    argminList (x :: y :: ys) =
      if x ≤ (y :: ys).getD (argminList (y :: ys)) 0 then 0
      else argminList (y :: ys) + 1 := by
  rw [argminList]

theorem argminList_lt_length : ∀ l : List Nat, l ≠ [] → argminList l < l.length := by
  intro l
  induction l with
  | nil => intro h; simp at h
  | cons x xs ih =>
    intro _
    cases xs with
    | nil => simp [argminList]
    | cons y ys =>
      rw [argminList_cons_cons]
      by_cases hx : x ≤ (y :: ys).getD (argminList (y :: ys)) 0
      · rw [if_pos hx]; simp
      · have h2 := ih (by simp)
        rw [if_neg hx]
        simp only [List.length_cons] at h2 ⊢
        omega

theorem argminList_min : ∀ (l : List Nat) (k : Nat), k < l.length →
    l.getD (argminList l) 0 ≤ l.getD k 0 := by
  intro l
  induction l with
  | nil => intro k hk; simp at hk
  | cons x xs ih =>
    cases xs with
    | nil =>
      intro k hk
      have hk0 : k = 0 := by
        simp only [List.length_cons, List.length_nil] at hk
        omega
      subst hk0
      simp [argminList]
    | cons y ys =>
      intro k hk
      rw [argminList_cons_cons]
      by_cases hx : x ≤ (y :: ys).getD (argminList (y :: ys)) 0
      · rw [if_pos hx]
        cases k with
        | zero => simp
        | succ j =>
          have hj : j < (y :: ys).length := by
            simp only [List.length_cons] at hk ⊢
            omega
          calc (x :: y :: ys).getD 0 0 = x := List.getD_cons_zero
            _ ≤ (y :: ys).getD (argminList (y :: ys)) 0 := hx
            _ ≤ (y :: ys).getD j 0 := ih j hj
            _ = (x :: y :: ys).getD (j + 1) 0 := (List.getD_cons_succ).symm
      · rw [if_neg hx]
        cases k with
        | zero =>
          calc (x :: y :: ys).getD (argminList (y :: ys) + 1) 0
              = (y :: ys).getD (argminList (y :: ys)) 0 := List.getD_cons_succ
            _ ≤ x := le_of_lt (Nat.lt_of_not_le hx)
            _ = (x :: y :: ys).getD 0 0 := (List.getD_cons_zero).symm
        | succ j =>
          have hj : j < (y :: ys).length := by
            simp only [List.length_cons] at hk ⊢
            omega
          calc (x :: y :: ys).getD (argminList (y :: ys) + 1) 0
              = (y :: ys).getD (argminList (y :: ys)) 0 := List.getD_cons_succ
            _ ≤ (y :: ys).getD j 0 := ih j hj
            _ = (x :: y :: ys).getD (j + 1) 0 := (List.getD_cons_succ).symm

theorem argminList_first : ∀ (l : List Nat) (k : Nat), k < argminList l →
    l.getD (argminList l) 0 < l.getD k 0 := by
  intro l
  induction l with
  | nil => intro k hk; simp [argminList] at hk
  | cons x xs ih =>
    cases xs with
    | nil => intro k hk; simp [argminList] at hk
    | cons y ys =>
      intro k hk
      rw [argminList_cons_cons] at hk ⊢
      by_cases hx : x ≤ (y :: ys).getD (argminList (y :: ys)) 0
      · rw [if_pos hx] at hk
        exact absurd hk (Nat.not_lt_zero k)
      · rw [if_neg hx] at hk ⊢
        cases k with
        | zero =>
          calc (x :: y :: ys).getD (argminList (y :: ys) + 1) 0
              = (y :: ys).getD (argminList (y :: ys)) 0 := List.getD_cons_succ
            _ < x := Nat.lt_of_not_le hx
            _ = (x :: y :: ys).getD 0 0 := (List.getD_cons_zero).symm
        | succ j =>
          have hj : j < argminList (y :: ys) := by omega
          calc (x :: y :: ys).getD (argminList (y :: ys) + 1) 0
              = (y :: ys).getD (argminList (y :: ys)) 0 := List.getD_cons_succ
            _ < (y :: ys).getD j 0 := ih j hj
            _ = (x :: y :: ys).getD (j + 1) 0 := (List.getD_cons_succ).symm

/-! ## Helper lemmas: the write loop -/

theorem writeAll_cons (init : List (Option Int)) (w : Nat × Int) (ws : List (Nat × Int)) :
    writeAll init (w :: ws) = writeAll (init.set w.1 (some w.2)) ws := rfl

theorem length_writeAll (ws : List (Nat × Int)) (init : List (Option Int)) :
    (writeAll init ws).length = init.length := by
  induction ws generalizing init with
  | nil => rfl
  | cons w ws ih =>
    rw [writeAll_cons, ih]
    exact List.length_set ..

theorem getD_set_of_lt (l : List (Option Int)) (j : Nat) (v : Option Int) (i : Nat)
    (hi : i < l.length) :
    (l.set j v).getD i none = if j = i then v else l.getD i none := by
  have hi2 : i < (l.set j v).length := by simpa using hi
  rw [List.getD_eq_getElem _ _ hi2, List.getD_eq_getElem _ _ hi, List.getElem_set]

theorem foldl_if_no_write (i : Nat) (ws : List (Nat × Int)) (acc : Option Int)
    (h : ∀ w ∈ ws, w.1 ≠ i) :
    ws.foldl (fun a w => if w.1 = i then some w.2 else a) acc = acc := by
  induction ws generalizing acc with
  | nil => rfl
  | cons w ws ih =>
    have hw : w.1 ≠ i := h w (by simp)
    have e : (w :: ws).foldl (fun a w => if w.1 = i then some w.2 else a) acc
        = ws.foldl (fun a w => if w.1 = i then some w.2 else a)
            (if w.1 = i then some w.2 else acc) := rfl
    rw [e, if_neg hw]
    exact ih acc (fun p hp => h p (by simp [hp]))

theorem foldl_if_isSome (i : Nat) (ws : List (Nat × Int)) (acc : Option Int) :
    (ws.foldl (fun a w => if w.1 = i then some w.2 else a) acc).isSome =
      (decide (i ∈ ws.map Prod.fst) || acc.isSome) := by
  induction ws generalizing acc with
  | nil => simp
  | cons w ws ih =>
    have e : (w :: ws).foldl (fun a w => if w.1 = i then some w.2 else a) acc
        = ws.foldl (fun a w => if w.1 = i then some w.2 else a)
            (if w.1 = i then some w.2 else acc) := rfl
    rw [e, ih]
    by_cases hw : w.1 = i
    · simp [hw]
    · have hw2 : i ≠ w.1 := fun h => hw h.symm
      have hb : (i == w.1) = false := by simpa using hw2
      simp [hw, hb]

theorem foldl_if_last_write (i : Nat) (pre post : List (Nat × Int)) (w : Nat × Int)
    (acc : Option Int) (hw : w.1 = i) (hpost : ∀ p ∈ post, p.1 ≠ i) :
    (pre ++ w :: post).foldl (fun a w => if w.1 = i then some w.2 else a) acc
      = some w.2 := by
  rw [List.foldl_append]
  have e : (w :: post).foldl (fun a w => if w.1 = i then some w.2 else a)
        (pre.foldl (fun a w => if w.1 = i then some w.2 else a) acc)
      = post.foldl (fun a w => if w.1 = i then some w.2 else a)
          (if w.1 = i then some w.2
           else pre.foldl (fun a w => if w.1 = i then some w.2 else a) acc) := rfl
  rw [e, if_pos hw]
  exact foldl_if_no_write i post _ hpost

theorem getD_writeAll (i : Nat) (ws : List (Nat × Int)) (init : List (Option Int))
    (hi : i < init.length) :
    (writeAll init ws).getD i none =
      ws.foldl (fun a w => if w.1 = i then some w.2 else a) (init.getD i none) := by
  induction ws generalizing init with
  | nil => rfl
  | cons w ws ih =>
    have e : (w :: ws).foldl (fun a w => if w.1 = i then some w.2 else a) (init.getD i none)
        = ws.foldl (fun a w => if w.1 = i then some w.2 else a)
            (if w.1 = i then some w.2 else init.getD i none) := rfl
    rw [writeAll_cons, e, ih _ (by simpa using hi)]
    rw [getD_set_of_lt init w.1 (some w.2) i hi]

theorem writeAll_replicate_eq (n : Nat) (ws : List (Nat × Int)) :
    writeAll (List.replicate n none) ws =
      (List.range n).map
        (fun i => ws.foldl (fun a w => if w.1 = i then some w.2 else a) none) := by
  apply List.ext_getElem
  · rw [length_writeAll]; simp
  · intro k h1 h2
    have hk : k < n := by
      rw [length_writeAll] at h1
      simpa using h1
    have hrep : (List.replicate n (none : Option Int)).getD k none = none := by
      rw [List.getD_eq_getElem _ _ (by simpa using hk)]
      simp
    have hW := getD_writeAll k ws (List.replicate n none) (by simpa using hk)
    rw [hrep] at hW
    have e1 : (writeAll (List.replicate n none) ws)[k] =
        (writeAll (List.replicate n none) ws).getD k none :=
      (List.getD_eq_getElem _ _ h1).symm
    rw [e1, hW]
    simp

theorem countP_writeAll (n : Nat) (ws : List (Nat × Int))
    (hb : ∀ w ∈ ws, w.1 < n) :
    (writeAll (List.replicate n none) ws).countP (fun o => o.isSome) =
      (ws.map Prod.fst).dedup.length := by
  rw [writeAll_replicate_eq, List.countP_map, List.countP_eq_length_filter]
  have hcong : ∀ i ∈ List.range n,
      ((fun o => Option.isSome o) ∘
        (fun i => ws.foldl (fun a w => if w.1 = i then some w.2 else a) none)) i
        = decide (i ∈ ws.map Prod.fst) := by
    intro i _
    show (ws.foldl (fun a w => if w.1 = i then some w.2 else a) none).isSome = _
    rw [foldl_if_isSome]
    simp
  rw [List.filter_congr hcong]
  apply List.Perm.length_eq
  rw [List.perm_ext_iff_of_nodup ((List.nodup_range n).filter _) (List.nodup_dedup _)]
  intro a
  constructor
  · intro ha
    rcases List.mem_filter.mp ha with ⟨_, ha2⟩
    exact List.mem_dedup.mpr (of_decide_eq_true ha2)
  · intro ha
    have ham : a ∈ ws.map Prod.fst := List.mem_dedup.mp ha
    refine List.mem_filter.mpr ⟨?_, by simpa using ham⟩
    rcases List.mem_map.mp ham with ⟨w, hwmem, hwa⟩
    exact List.mem_range.mpr (hwa ▸ hb w hwmem)

theorem length_dedup_of_nodup (l : List Nat) (h : l.Nodup) :
    l.dedup.length = l.length := by
  rw [List.dedup_eq_self.mpr h]

theorem length_dedup_lt_of_not_nodup (l : List Nat) (h : ¬ l.Nodup) :
    l.dedup.length < l.length := by
  have hle : l.dedup.length ≤ l.length := (List.dedup_sublist l).length_le
  rcases lt_or_eq_of_le hle with h1 | h2
  · exact h1
  · exact absurd (List.dedup_eq_self.mp ((List.dedup_sublist l).eq_of_length h2)) h

/-! ## Helper lemmas: `add_gps_coordinates` as three write loops -/

theorem add_gps_foldl_eq (ct : List Int) (fixes : List GpsFix) :
    ∀ a b c : List (Option Int),
    fixes.foldl
      (fun acc f =>
        (acc.1.set (find_nearest_index ct f.gps_time) (some f.gps_lat),
         acc.2.1.set (find_nearest_index ct f.gps_time) (some f.gps_lon),
         acc.2.2.set (find_nearest_index ct f.gps_time) (some f.gps_time)))
      (a, b, c) =
      (writeAll a (fixes.map fun f => (find_nearest_index ct f.gps_time, f.gps_lat)),
       writeAll b (fixes.map fun f => (find_nearest_index ct f.gps_time, f.gps_lon)),
       writeAll c (fixes.map fun f => (find_nearest_index ct f.gps_time, f.gps_time))) := by
  induction fixes with
  | nil => intro a b c; rfl
  | cons f fs ih =>
    intro a b c
    rw [List.foldl_cons, List.map_cons, List.map_cons, List.map_cons,
      writeAll_cons, writeAll_cons, writeAll_cons]
    exact ih _ _ _

theorem add_gps_coordinates_eq (ct : List Int) (fixes : List GpsFix) :
    add_gps_coordinates ct fixes =
      (writeAll (List.replicate ct.length none)
        (fixes.map fun f => (find_nearest_index ct f.gps_time, f.gps_lat)),
       writeAll (List.replicate ct.length none)
        (fixes.map fun f => (find_nearest_index ct f.gps_time, f.gps_lon)),
       writeAll (List.replicate ct.length none)
        (fixes.map fun f => (find_nearest_index ct f.gps_time, f.gps_time))) :=
  add_gps_foldl_eq ct fixes _ _ _

theorem find_nearest_index_lt (ct : List Int) (g : Int) (h : ct ≠ []) :
    find_nearest_index ct g < ct.length := by
  have h2 := argminList_lt_length (ct.map (fun t => (t - g).natAbs)) (by simpa using h)
  simpa [find_nearest_index] using h2

theorem getD_map_natAbs (ct : List Int) (g : Int) (j : Nat) (hj : j < ct.length) :
    (ct.map (fun t => (t - g).natAbs)).getD j 0 = ((ct.getD j 0) - g).natAbs := by
  rw [List.getD_eq_getElem _ _ (by simpa using hj), List.getD_eq_getElem _ _ hj,
    List.getElem_map]

theorem getD_replicate_none (n i : Nat) :
    (List.replicate n (none : Option Int)).getD i none = none := by
  by_cases h : i < n
  · rw [List.getD_eq_getElem _ _ (by simpa using h)]
    simp
  · exact List.getD_eq_default _ _ (by simpa using Nat.le_of_not_lt h)

theorem getD_writeAll_not_written (n : Nat) (ws : List (Nat × Int)) (i : Nat)
    (h : i ∉ ws.map Prod.fst) :
    (writeAll (List.replicate n none) ws).getD i none = none := by
  by_cases hi : i < n
  · rw [getD_writeAll i ws _ (by simpa using hi), getD_replicate_none]
    exact foldl_if_no_write i ws none
      (fun w hw e => h (e ▸ List.mem_map_of_mem Prod.fst hw))
  · apply List.getD_eq_default
    rw [length_writeAll]
    simpa using Nat.le_of_not_lt hi

theorem getD_writeAll_append (n i : Nat) (pre post : List (Nat × Int)) (w : Nat × Int)
    (hi : i < n) (hw : w.1 = i) (hpost : ∀ p ∈ post, p.1 ≠ i) :
    (writeAll (List.replicate n none) (pre ++ w :: post)).getD i none = some w.2 := by
  rw [getD_writeAll i _ _ (by simpa using hi), getD_replicate_none]
  exact foldl_if_last_write i pre post w none hw hpost

theorem map_fst_pairs (ct : List Int) (fixes : List GpsFix) (val : GpsFix → Int) :
    ((fixes.map fun f => (find_nearest_index ct f.gps_time, val f)).map Prod.fst)
      = mappedIndices ct fixes := by
  rw [List.map_map]
  rfl

/-! ## Claim C1 -/

/-- C1: for every dive record and every GPS fix in its fix axis, the
measurement-axis index that the GPS aligner assigns to that fix
(`find_nearest_index`, used by `add_gps_coordinates` for each fix) is the
index minimizing the absolute difference between the fix time and the
measurement time array, and when two or more indices attain the minimum the
lowest such index is chosen (every strictly smaller index has a strictly
larger difference). -/
theorem add_gps_assigned_index_is_first_argmin
    (ctd_time : List Int) (fixes : List GpsFix) (f : GpsFix)
    (hmem : f ∈ fixes) (hne : ctd_time ≠ []) :
    find_nearest_index ctd_time f.gps_time ∈ mappedIndices ctd_time fixes
    ∧ find_nearest_index ctd_time f.gps_time < ctd_time.length
    ∧ (∀ j < ctd_time.length,
        ((ctd_time.getD (find_nearest_index ctd_time f.gps_time) 0) - f.gps_time).natAbs
          ≤ ((ctd_time.getD j 0) - f.gps_time).natAbs)
    ∧ (∀ j < find_nearest_index ctd_time f.gps_time,
        ((ctd_time.getD (find_nearest_index ctd_time f.gps_time) 0) - f.gps_time).natAbs
          < ((ctd_time.getD j 0) - f.gps_time).natAbs) := by
  have hlt : find_nearest_index ctd_time f.gps_time < ctd_time.length :=
    find_nearest_index_lt ctd_time f.gps_time hne
  refine ⟨List.mem_map_of_mem _ hmem, hlt, ?_, ?_⟩
  · intro j hj
    have h1 := argminList_min (ctd_time.map fun t => (t - f.gps_time).natAbs) j
      (by simpa using hj)
    rw [getD_map_natAbs _ _ _ hj] at h1
    have e : argminList (ctd_time.map fun t => (t - f.gps_time).natAbs)
        = find_nearest_index ctd_time f.gps_time := rfl
    rw [e, getD_map_natAbs _ _ _ hlt] at h1
    exact h1
  · intro j hj
    have e : argminList (ctd_time.map fun t => (t - f.gps_time).natAbs)
        = find_nearest_index ctd_time f.gps_time := rfl
    have hjlen : j < ctd_time.length := lt_trans hj hlt
    have h1 := argminList_first (ctd_time.map fun t => (t - f.gps_time).natAbs) j
      (by rw [e]; exact hj)
    rw [e, getD_map_natAbs _ _ _ hjlen, getD_map_natAbs _ _ _ hlt] at h1
    exact h1

/-- Witness for C1 at the concrete scenario of the spec: dive with samples at
times 100, 200, 300 and one fix at time 150; distances 50, 50, 150 tie and
the lower index 0 is chosen. -/
theorem add_gps_assigned_index_is_first_argmin_witness :
    find_nearest_index [100, 200, 300] 150 = 0
    ∧ (GpsFix.mk 150 10 20 ∈ [GpsFix.mk 150 10 20]
       ∧ ([100, 200, 300] : List Int) ≠ []
       ∧ (find_nearest_index [100, 200, 300] (GpsFix.mk 150 10 20).gps_time
            ∈ mappedIndices [100, 200, 300] [GpsFix.mk 150 10 20]
          ∧ find_nearest_index [100, 200, 300] (GpsFix.mk 150 10 20).gps_time
            < ([100, 200, 300] : List Int).length
          ∧ (∀ j < ([100, 200, 300] : List Int).length,
              ((([100, 200, 300] : List Int).getD
                  (find_nearest_index [100, 200, 300]
                    (GpsFix.mk 150 10 20).gps_time) 0)
                - (GpsFix.mk 150 10 20).gps_time).natAbs
                ≤ ((([100, 200, 300] : List Int).getD j 0)
                    - (GpsFix.mk 150 10 20).gps_time).natAbs)
          ∧ (∀ j < find_nearest_index [100, 200, 300] (GpsFix.mk 150 10 20).gps_time,
              ((([100, 200, 300] : List Int).getD
                  (find_nearest_index [100, 200, 300]
                    (GpsFix.mk 150 10 20).gps_time) 0)
                - (GpsFix.mk 150 10 20).gps_time).natAbs
                < ((([100, 200, 300] : List Int).getD j 0)
                    - (GpsFix.mk 150 10 20).gps_time).natAbs))) :=
  ⟨by decide,
   by decide,
   by decide,
   add_gps_assigned_index_is_first_argmin [100, 200, 300] [GpsFix.mk 150 10 20]
     (GpsFix.mk 150 10 20) (by decide) (by decide)⟩

/-! ## Claim C9 -/

/-- C9: for every dive record with an empty fix axis, `add_gps_coordinates`
completes (it is a total function here, mirroring that the Python loop body
never runs) and returns the three aligned arrays at full measurement-axis
length with every entry the missing value. -/
theorem add_gps_empty_fixes (ctd_time : List Int) :
    add_gps_coordinates ctd_time [] =
      (List.replicate ctd_time.length none, List.replicate ctd_time.length none,
       List.replicate ctd_time.length none)
    ∧ (add_gps_coordinates ctd_time []).1.length = ctd_time.length
    ∧ (add_gps_coordinates ctd_time []).2.1.length = ctd_time.length
    ∧ (add_gps_coordinates ctd_time []).2.2.length = ctd_time.length
    ∧ (∀ i, (add_gps_coordinates ctd_time []).1.getD i none = none)
    ∧ (∀ i, (add_gps_coordinates ctd_time []).2.1.getD i none = none)
    ∧ (∀ i, (add_gps_coordinates ctd_time []).2.2.getD i none = none) := by
  refine ⟨rfl, by simp [add_gps_coordinates], by simp [add_gps_coordinates],
    by simp [add_gps_coordinates], ?_, ?_, ?_⟩
  all_goals
    intro i
    exact getD_replicate_none ctd_time.length i

/-! ## Claim C4 -/

/-- C4: for every dive record with a nonempty measurement axis, after
`add_gps_coordinates` the three new arrays each have length exactly the
measurement-axis length, every position other than a mapped index holds the
missing value, and the count of non-missing entries equals the fix count
when no two fixes map to the same index and is strictly less otherwise. -/
theorem add_gps_array_lengths_and_fix_count
    (ctd_time : List Int) (fixes : List GpsFix) (hne : ctd_time ≠ []) :
    ((add_gps_coordinates ctd_time fixes).1.length = ctd_time.length
      ∧ (add_gps_coordinates ctd_time fixes).2.1.length = ctd_time.length
      ∧ (add_gps_coordinates ctd_time fixes).2.2.length = ctd_time.length)
    ∧ (∀ i, i ∉ mappedIndices ctd_time fixes →
        (add_gps_coordinates ctd_time fixes).1.getD i none = none
        ∧ (add_gps_coordinates ctd_time fixes).2.1.getD i none = none
        ∧ (add_gps_coordinates ctd_time fixes).2.2.getD i none = none)
    ∧ ((mappedIndices ctd_time fixes).Nodup →
        (add_gps_coordinates ctd_time fixes).1.countP (fun o => o.isSome) = fixes.length
        ∧ (add_gps_coordinates ctd_time fixes).2.1.countP (fun o => o.isSome) = fixes.length
        ∧ (add_gps_coordinates ctd_time fixes).2.2.countP (fun o => o.isSome) = fixes.length)
    ∧ (¬ (mappedIndices ctd_time fixes).Nodup →
        (add_gps_coordinates ctd_time fixes).1.countP (fun o => o.isSome) < fixes.length
        ∧ (add_gps_coordinates ctd_time fixes).2.1.countP (fun o => o.isSome) < fixes.length
        ∧ (add_gps_coordinates ctd_time fixes).2.2.countP (fun o => o.isSome) < fixes.length) := by
  have hlen : ∀ ws : List (Nat × Int),
      (writeAll (List.replicate ctd_time.length none) ws).length = ctd_time.length := by
    intro ws
    rw [length_writeAll]
    simp
  have hbound : ∀ val : GpsFix → Int,
      ∀ w ∈ (fixes.map fun f => (find_nearest_index ctd_time f.gps_time, val f)),
        w.1 < ctd_time.length := by
    intro val w hw
    rcases List.mem_map.mp hw with ⟨f, _, rfl⟩
    exact find_nearest_index_lt ctd_time f.gps_time hne
  have hcount : ∀ val : GpsFix → Int,
      (writeAll (List.replicate ctd_time.length none)
        (fixes.map fun f => (find_nearest_index ctd_time f.gps_time, val f))).countP
          (fun o => o.isSome) = (mappedIndices ctd_time fixes).dedup.length := by
    intro val
    rw [countP_writeAll ctd_time.length _ (hbound val), map_fst_pairs]
  have hnot : ∀ val : GpsFix → Int, ∀ i, i ∉ mappedIndices ctd_time fixes →
      (writeAll (List.replicate ctd_time.length none)
        (fixes.map fun f => (find_nearest_index ctd_time f.gps_time, val f))).getD i none
        = none := by
    intro val i hi
    apply getD_writeAll_not_written
    rw [map_fst_pairs]
    exact hi
  rw [add_gps_coordinates_eq]
  refine ⟨⟨hlen _, hlen _, hlen _⟩,
    fun i hi => ⟨hnot _ i hi, hnot _ i hi, hnot _ i hi⟩, ?_, ?_⟩
  · intro hnd
    have hd : (mappedIndices ctd_time fixes).dedup.length = fixes.length := by
      rw [length_dedup_of_nodup _ hnd, mappedIndices, List.length_map]
    exact ⟨(hcount _).trans hd, (hcount _).trans hd, (hcount _).trans hd⟩
  · intro hnd
    have hd : (mappedIndices ctd_time fixes).dedup.length < fixes.length := by
      have h2 := length_dedup_lt_of_not_nodup _ hnd
      rwa [mappedIndices, List.length_map] at h2
    exact ⟨lt_of_eq_of_lt (hcount _) hd, lt_of_eq_of_lt (hcount _) hd,
      lt_of_eq_of_lt (hcount _) hd⟩

/-- Witness for C4: two samples at times 0 and 100, two fixes at times 1 and
2 (both nearest to index 0, a collision, so the non-missing count 1 is
strictly below the fix count 2). -/
theorem add_gps_array_lengths_and_fix_count_witness :
    (([0, 100] : List Int) ≠ [])
    ∧ (((add_gps_coordinates [0, 100] [GpsFix.mk 1 10 20, GpsFix.mk 2 30 40]).1.length
          = ([0, 100] : List Int).length
        ∧ (add_gps_coordinates [0, 100] [GpsFix.mk 1 10 20, GpsFix.mk 2 30 40]).2.1.length
          = ([0, 100] : List Int).length
        ∧ (add_gps_coordinates [0, 100] [GpsFix.mk 1 10 20, GpsFix.mk 2 30 40]).2.2.length
          = ([0, 100] : List Int).length)
      ∧ (∀ i, i ∉ mappedIndices [0, 100] [GpsFix.mk 1 10 20, GpsFix.mk 2 30 40] →
          (add_gps_coordinates [0, 100] [GpsFix.mk 1 10 20, GpsFix.mk 2 30 40]).1.getD i none
            = none
          ∧ (add_gps_coordinates [0, 100]
              [GpsFix.mk 1 10 20, GpsFix.mk 2 30 40]).2.1.getD i none = none
          ∧ (add_gps_coordinates [0, 100]
              [GpsFix.mk 1 10 20, GpsFix.mk 2 30 40]).2.2.getD i none = none)
      ∧ ((mappedIndices [0, 100] [GpsFix.mk 1 10 20, GpsFix.mk 2 30 40]).Nodup →
          (add_gps_coordinates [0, 100]
            [GpsFix.mk 1 10 20, GpsFix.mk 2 30 40]).1.countP (fun o => o.isSome)
            = ([GpsFix.mk 1 10 20, GpsFix.mk 2 30 40] : List GpsFix).length
          ∧ (add_gps_coordinates [0, 100]
              [GpsFix.mk 1 10 20, GpsFix.mk 2 30 40]).2.1.countP (fun o => o.isSome)
            = ([GpsFix.mk 1 10 20, GpsFix.mk 2 30 40] : List GpsFix).length
          ∧ (add_gps_coordinates [0, 100]
              [GpsFix.mk 1 10 20, GpsFix.mk 2 30 40]).2.2.countP (fun o => o.isSome)
            = ([GpsFix.mk 1 10 20, GpsFix.mk 2 30 40] : List GpsFix).length)
      ∧ (¬ (mappedIndices [0, 100] [GpsFix.mk 1 10 20, GpsFix.mk 2 30 40]).Nodup →
          (add_gps_coordinates [0, 100]
            [GpsFix.mk 1 10 20, GpsFix.mk 2 30 40]).1.countP (fun o => o.isSome)
            < ([GpsFix.mk 1 10 20, GpsFix.mk 2 30 40] : List GpsFix).length
          ∧ (add_gps_coordinates [0, 100]
              [GpsFix.mk 1 10 20, GpsFix.mk 2 30 40]).2.1.countP (fun o => o.isSome)
            < ([GpsFix.mk 1 10 20, GpsFix.mk 2 30 40] : List GpsFix).length
          ∧ (add_gps_coordinates [0, 100]
              [GpsFix.mk 1 10 20, GpsFix.mk 2 30 40]).2.2.countP (fun o => o.isSome)
            < ([GpsFix.mk 1 10 20, GpsFix.mk 2 30 40] : List GpsFix).length)) :=
  ⟨by decide,
   add_gps_array_lengths_and_fix_count [0, 100]
     [GpsFix.mk 1 10 20, GpsFix.mk 2 30 40] (by decide)⟩

/-! ## Claim C5 -/

/-- C5: when an earlier fix `g` and a later fix `f` map to the same
measurement index `i` (and no fix after `f` maps to `i`), the value stored
at `i` in each of the three aligned arrays is the value of the later fix
`f`: the values of the earlier fix are silently lost, and no error is raised
(`add_gps_coordinates` is total). -/
theorem add_gps_later_fix_overwrites
    (ctd_time : List Int) (pre post : List GpsFix) (f g : GpsFix) (i : Nat)
    (hne : ctd_time ≠ [])
    (hg : g ∈ pre) (hgi : find_nearest_index ctd_time g.gps_time = i)
    (hfi : find_nearest_index ctd_time f.gps_time = i)
    (hpost : ∀ p ∈ post, find_nearest_index ctd_time p.gps_time ≠ i) :
    (add_gps_coordinates ctd_time (pre ++ f :: post)).1.getD i none = some f.gps_lat
    ∧ (add_gps_coordinates ctd_time (pre ++ f :: post)).2.1.getD i none = some f.gps_lon
    ∧ (add_gps_coordinates ctd_time (pre ++ f :: post)).2.2.getD i none = some f.gps_time := by
  have hi : i < ctd_time.length := hfi ▸ find_nearest_index_lt ctd_time f.gps_time hne
  have harr : ∀ val : GpsFix → Int,
      (writeAll (List.replicate ctd_time.length none)
        ((pre ++ f :: post).map
          (fun x => (find_nearest_index ctd_time x.gps_time, val x)))).getD i none
        = some (val f) := by
    intro val
    rw [List.map_append, List.map_cons]
    apply getD_writeAll_append ctd_time.length i _ _ _ hi hfi
    intro p hp
    rcases List.mem_map.mp hp with ⟨q, hq, rfl⟩
    exact hpost q hq
  rw [add_gps_coordinates_eq]
  exact ⟨harr _, harr _, harr _⟩

/-- Witness for C5: samples at times 0 and 100; the fix at time 1 and the
later fix at time 2 both map to index 0; the stored triple at index 0 is the
later fix, namely (30, 40, 2). -/
theorem add_gps_later_fix_overwrites_witness :
    (([0, 100] : List Int) ≠ [])
    ∧ GpsFix.mk 1 10 20 ∈ [GpsFix.mk 1 10 20]
    ∧ find_nearest_index [0, 100] (GpsFix.mk 1 10 20).gps_time = 0
    ∧ find_nearest_index [0, 100] (GpsFix.mk 2 30 40).gps_time = 0
    ∧ ((add_gps_coordinates [0, 100]
          ([GpsFix.mk 1 10 20] ++ GpsFix.mk 2 30 40 :: [])).1.getD 0 none
        = some (GpsFix.mk 2 30 40).gps_lat
      ∧ (add_gps_coordinates [0, 100]
          ([GpsFix.mk 1 10 20] ++ GpsFix.mk 2 30 40 :: [])).2.1.getD 0 none
        = some (GpsFix.mk 2 30 40).gps_lon
      ∧ (add_gps_coordinates [0, 100]
          ([GpsFix.mk 1 10 20] ++ GpsFix.mk 2 30 40 :: [])).2.2.getD 0 none
        = some (GpsFix.mk 2 30 40).gps_time) :=
  ⟨by decide, by decide, by decide, by decide,
   add_gps_later_fix_overwrites [0, 100] [GpsFix.mk 1 10 20] [] (GpsFix.mk 2 30 40)
     (GpsFix.mk 1 10 20) 0 (by decide) (by decide) (by decide) (by decide)
     (by intro p hp; exact absurd hp (List.not_mem_nil p))⟩

/-! ## Claim C3 -/

/-- C3 counterexample: a trajectory variable arriving with two elements,
fewer than the measurement-axis length three, makes the numpy broadcast
assignment of `repeat_trajectory_vars` raise (modelled as `none`): no
expanded variable is produced at all, contradicting the claim that every
shorter-than-axis variable is replaced by a full-length repeated array. -/
theorem repeat_trajectory_vars_short_array_fails :
    (TrajVar.mk [7, 8] "traj id comment").values.length = 2
    ∧ 2 < 3
    ∧ repeat_trajectory_vars (TrajVar.mk [7, 8] "traj id comment") 3 = none := by
  decide

/-- C3 (amended): for every dive record whose trajectory-identifier variable
arrives as a single scalar (one element), reconciliation replaces it by a
measurement-axis-length array in which every position equals the original
value, and the original comment attribute of the variable is preserved
exactly.
(A multi-element variable shorter than the axis instead fails the numpy
broadcast.) -/
theorem repeat_trajectory_vars_scalar (v : Int) (c : String) (n : Nat) :
    repeat_trajectory_vars (TrajVar.mk [v] c) n
      = some (TrajVar.mk (List.replicate n v) c)
    ∧ (List.replicate n v).length = n
    ∧ (∀ i < n, (List.replicate n v).getD i 0 = v) := by
  have hb : broadcast_fill [v] n = some (List.replicate n v) := by
    unfold broadcast_fill
    rcases eq_or_ne n 1 with h | h
    · subst h
      simp
    · have h1 : ¬ (([v] : List Int).length = n) := by simpa using Ne.symm h
      rw [if_neg h1, if_pos (by simp)]
      simp
  refine ⟨?_, by simp, ?_⟩
  · unfold repeat_trajectory_vars
    rw [hb]
    rfl
  · intro i hi
    rw [List.getD_eq_getElem _ _ (by simpa using hi)]
    simp

/-! ## Claim C6 -/

/-- C6: a candidate file whose name ends in the expected extension and
parses to profile number `p` is selected exactly when `p` lies in the
inclusive range `[start_profile, end_profile]`, a bound of `none` imposing
no constraint on its side (both `none` selects every candidate). -/
theorem filtered_files_inclusive_range
    (files : List CandidateFile) (f : CandidateFile)
    (start_profile end_profile : Option Int)
    (hmem : f ∈ files) (hnc : f.ends_nc = true) :
    f ∈ filtered_files files start_profile end_profile ↔
      ((∀ s, start_profile = some s → s ≤ f.profile_number)
        ∧ (∀ e, end_profile = some e → f.profile_number ≤ e)) := by
  cases start_profile with
  | none =>
    cases end_profile with
    | none => simp [filtered_files, List.mem_filter, keep_file, hnc, hmem]
    | some e => simp [filtered_files, List.mem_filter, keep_file, hnc, hmem]
  | some s =>
    cases end_profile with
    | none => simp [filtered_files, List.mem_filter, keep_file, hnc, hmem]
    | some e => simp [filtered_files, List.mem_filter, keep_file, hnc, hmem, and_comm]

/-- Witness for C6 at the concrete scenario of the spec: files numbered 5, 15, 25
with bounds 10 and 20; only the file numbered 15 is selected. -/
theorem filtered_files_inclusive_range_witness :
    CandidateFile.mk true 15
      ∈ [CandidateFile.mk true 5, CandidateFile.mk true 15, CandidateFile.mk true 25]
    ∧ (CandidateFile.mk true 15).ends_nc = true
    ∧ (CandidateFile.mk true 15
        ∈ filtered_files
            [CandidateFile.mk true 5, CandidateFile.mk true 15, CandidateFile.mk true 25]
            (some 10) (some 20) ↔
        ((∀ s, (some (10 : Int)) = some s → s ≤ (CandidateFile.mk true 15).profile_number)
          ∧ (∀ e, (some (20 : Int)) = some e
              → (CandidateFile.mk true 15).profile_number ≤ e)))
    ∧ filtered_files
        [CandidateFile.mk true 5, CandidateFile.mk true 15, CandidateFile.mk true 25]
        (some 10) (some 20) = [CandidateFile.mk true 15] :=
  ⟨by decide, by decide,
   filtered_files_inclusive_range
     [CandidateFile.mk true 5, CandidateFile.mk true 15, CandidateFile.mk true 25]
     (CandidateFile.mk true 15) (some 10) (some 20) (by decide) (by decide),
   by decide⟩

/-! ## Claim C7 -/

theorem all_congr_mem (l : List String) (p q : String → Bool)
    (h : ∀ d ∈ l, p d = q d) : l.all p = l.all q := by
  induction l with
  | nil => rfl
  | cons d ds ih =>
    simp only [List.all_cons]
    rw [h d (by simp), ih (fun x hx => h x (by simp [hx]))]

/-- C7 counterexample: after the dimension drop of fetchers.py line 87, a
variable carrying the measurement axis plus a second dimension is dropped
(the claim says it is retained), and a dimensionless scalar variable is
retained (the claim says every variable whose dimension set lacks the
measurement axis is dropped). -/
theorem drop_non_sg_counterexample :
    "sg_data_point" ∈ (VarDecl.mk "speed2d" ["sg_data_point", "second_dim"]).dims
    ∧ (VarDecl.mk "meta" []).dims = []
    ∧ drop_non_sg
        [VarDecl.mk "x" ["sg_data_point"], VarDecl.mk "meta" [],
         VarDecl.mk "speed2d" ["sg_data_point", "second_dim"]]
      = [VarDecl.mk "x" ["sg_data_point"], VarDecl.mk "meta" []] := by
  decide

/-- C7 (amended): the dimension drop retains exactly the variables all of
whose dimensions equal the measurement axis (dimensionless scalar variables
are vacuously retained, unchanged) and drops exactly the variables having
at least one dimension other than the measurement axis, even when they also
carry the measurement axis. -/
theorem drop_non_sg_keeps_only_pure_sg (vars : List VarDecl) :
    drop_non_sg vars
      = vars.filter (fun v => v.dims.all (fun d => decide (d = "sg_data_point"))) := by
  unfold drop_non_sg drop_dims
  apply List.filter_congr
  intro v hv
  apply all_congr_mem
  intro d hd
  have hds : d ∈ ds_dims vars := by
    unfold ds_dims
    exact List.mem_dedup.mpr
      (List.mem_flatten.mpr ⟨v.dims, List.mem_map_of_mem VarDecl.dims hv, hd⟩)
  by_cases hsg : d = "sg_data_point"
  · have h1 : d ∉ (ds_dims vars).filter (fun x => !(decide (x = "sg_data_point"))) := by
      intro hmem2
      rcases List.mem_filter.mp hmem2 with ⟨_, hbool⟩
      simp [hsg] at hbool
    simp [h1, hsg]
  · have h1 : d ∈ (ds_dims vars).filter (fun x => !(decide (x = "sg_data_point"))) :=
      List.mem_filter.mpr ⟨hds, by simp [hsg]⟩
    simp [h1, hsg]

/-! ## Helper lemmas: stable insertion sort -/

theorem length_insertSorted (key : α → Int) (x : α) (l : List α) :
    (insertSorted key x l).length = l.length + 1 := by
  induction l with
  | nil => rfl
  | cons y ys ih =>
    rw [insertSorted]
    by_cases h : key x ≤ key y
    · rw [if_pos h]
      rfl
    · rw [if_neg h]
      simp [ih]

theorem length_sortByKey (key : α → Int) (l : List α) :
    (sortByKey key l).length = l.length := by
  induction l with
  | nil => rfl
  | cons x xs ih =>
    rw [sortByKey, length_insertSorted, ih]
    rfl

theorem mem_insertSorted (key : α → Int) (x z : α) (l : List α) :
    z ∈ insertSorted key x l ↔ z = x ∨ z ∈ l := by
  induction l with
  | nil => simp [insertSorted]
  | cons y ys ih =>
    rw [insertSorted]
    by_cases h : key x ≤ key y
    · rw [if_pos h]
      simp
    · rw [if_neg h]
      simp only [List.mem_cons, ih]
      tauto

theorem pairwise_insertSorted (key : α → Int) (x : α) (l : List α)
    (h : l.Pairwise (fun a b => key a ≤ key b)) :
    (insertSorted key x l).Pairwise (fun a b => key a ≤ key b) := by
  induction l with
  | nil => simp [insertSorted]
  | cons y ys ih =>
    rw [insertSorted]
    rcases List.pairwise_cons.mp h with ⟨hy, hys⟩
    by_cases hxy : key x ≤ key y
    · rw [if_pos hxy]
      refine List.pairwise_cons.mpr ⟨?_, h⟩
      intro z hz
      rcases List.mem_cons.mp hz with rfl | hz2
      · exact hxy
      · exact le_trans hxy (hy z hz2)
    · rw [if_neg hxy]
      refine List.pairwise_cons.mpr ⟨?_, ih hys⟩
      intro z hz
      rcases (mem_insertSorted key x z ys).mp hz with rfl | hz2
      · exact le_of_lt (not_le.mp hxy)
      · exact hy z hz2

theorem pairwise_sortByKey (key : α → Int) (l : List α) :
    (sortByKey key l).Pairwise (fun a b => key a ≤ key b) := by
  induction l with
  | nil => simp [sortByKey]
  | cons x xs ih =>
    rw [sortByKey]
    exact pairwise_insertSorted key x _ ih

theorem filter_insertSorted (key : α → Int) (p : α → Bool)
    (hp : ∀ a b, p a = true → p b = true → key a = key b)
    (x : α) (l : List α) :
    (insertSorted key x l).filter p = (x :: l).filter p := by
  induction l with
  | nil => rfl
  | cons y ys ih =>
    rw [insertSorted]
    by_cases hxy : key x ≤ key y
    · rw [if_pos hxy]
    · rw [if_neg hxy]
      by_cases hpx : p x = true
      · have hpy : p y = false := by
          rcases Bool.eq_false_or_eq_true (p y) with h | h
          · exact absurd (le_of_eq (hp x y hpx h)) hxy
          · exact h
        simp [List.filter_cons, hpx, hpy, ih]
      · have hpx2 : p x = false := by
          rcases Bool.eq_false_or_eq_true (p x) with h | h
          · exact absurd h hpx
          · exact h
        simp [List.filter_cons, hpx2, ih]

theorem filter_sortByKey (key : α → Int) (p : α → Bool)
    (hp : ∀ a b, p a = true → p b = true → key a = key b)
    (l : List α) :
    (sortByKey key l).filter p = l.filter p := by
  induction l with
  | nil => rfl
  | cons x xs ih =>
    rw [sortByKey, filter_insertSorted key p hp x (sortByKey key xs)]
    simp [List.filter_cons, ih]

/-! ## Claim C2 -/

/-- C2: assembling a nonempty sequence of dive records (identical variable
sets, here one row type) yields a trajectory whose measurement axis has
length the sum of the input lengths, whose primary time variable is
ascending at every adjacent pair, and in which equal-time samples keep
their relative input order (the filter of the sorted output at any fixed
time equals the filter of the concatenation in input order). -/
theorem assemble_length_sorted_stable
    (recs : List (List Sample)) (hne : recs ≠ []) :
    (assemble recs).length = (recs.map List.length).sum
    ∧ (∀ i, i + 1 < (assemble recs).length →
        ((assemble recs).getD i default).ctd_time
          ≤ ((assemble recs).getD (i + 1) default).ctd_time)
    ∧ (∀ t : Int, (assemble recs).filter (fun s => s.ctd_time == t)
        = recs.flatten.filter (fun s => s.ctd_time == t)) := by
  refine ⟨?_, ?_, ?_⟩
  · show (sortByKey Sample.ctd_time recs.flatten).length = _
    rw [length_sortByKey, List.length_flatten]
  · intro i hi
    have hp := pairwise_sortByKey Sample.ctd_time recs.flatten
    rw [List.pairwise_iff_getElem] at hp
    have h2 : i + 1 < (sortByKey Sample.ctd_time recs.flatten).length := hi
    have h1 : i < (sortByKey Sample.ctd_time recs.flatten).length := by omega
    have h3 := hp i (i + 1) h1 h2 (by omega)
    show ((sortByKey Sample.ctd_time recs.flatten).getD i default).ctd_time
      ≤ ((sortByKey Sample.ctd_time recs.flatten).getD (i + 1) default).ctd_time
    rw [List.getD_eq_getElem _ _ h1, List.getD_eq_getElem _ _ h2]
    exact h3
  · intro t
    show (sortByKey Sample.ctd_time recs.flatten).filter (fun s => s.ctd_time == t) = _
    apply filter_sortByKey
    intro a b ha hb
    have ha2 : a.ctd_time = t := by simpa using ha
    have hb2 : b.ctd_time = t := by simpa using hb
    rw [ha2, hb2]

/-- Witness for C2 at the concrete scenario of the spec: dive A with samples at
times 100, 200, 300 and dive B with samples at times 50, 250; the assembled
trajectory has length 5 and times 50, 100, 200, 250, 300. -/
theorem assemble_length_sorted_stable_witness :
    ([[Sample.mk 100 0 0, Sample.mk 200 0 1, Sample.mk 300 0 2],
      [Sample.mk 50 1 0, Sample.mk 250 1 1]] : List (List Sample)) ≠ []
    ∧ ((assemble [[Sample.mk 100 0 0, Sample.mk 200 0 1, Sample.mk 300 0 2],
          [Sample.mk 50 1 0, Sample.mk 250 1 1]]).length
        = (([[Sample.mk 100 0 0, Sample.mk 200 0 1, Sample.mk 300 0 2],
            [Sample.mk 50 1 0, Sample.mk 250 1 1]] : List (List Sample)).map
              List.length).sum
      ∧ (∀ i, i + 1 < (assemble [[Sample.mk 100 0 0, Sample.mk 200 0 1, Sample.mk 300 0 2],
            [Sample.mk 50 1 0, Sample.mk 250 1 1]]).length →
          ((assemble [[Sample.mk 100 0 0, Sample.mk 200 0 1, Sample.mk 300 0 2],
              [Sample.mk 50 1 0, Sample.mk 250 1 1]]).getD i default).ctd_time
            ≤ ((assemble [[Sample.mk 100 0 0, Sample.mk 200 0 1, Sample.mk 300 0 2],
                [Sample.mk 50 1 0, Sample.mk 250 1 1]]).getD (i + 1) default).ctd_time)
      ∧ (∀ t : Int, (assemble [[Sample.mk 100 0 0, Sample.mk 200 0 1, Sample.mk 300 0 2],
            [Sample.mk 50 1 0, Sample.mk 250 1 1]]).filter (fun s => s.ctd_time == t)
          = ([[Sample.mk 100 0 0, Sample.mk 200 0 1, Sample.mk 300 0 2],
              [Sample.mk 50 1 0, Sample.mk 250 1 1]] : List (List Sample)).flatten.filter
                (fun s => s.ctd_time == t)))
    ∧ (assemble [[Sample.mk 100 0 0, Sample.mk 200 0 1, Sample.mk 300 0 2],
        [Sample.mk 50 1 0, Sample.mk 250 1 1]]).map Sample.ctd_time
      = [50, 100, 200, 250, 300] :=
  ⟨by decide,
   assemble_length_sorted_stable
     [[Sample.mk 100 0 0, Sample.mk 200 0 1, Sample.mk 300 0 2],
      [Sample.mk 50 1 0, Sample.mk 250 1 1]] (by decide),
   by decide⟩

/-! ## Claim C8 -/

theorem lookup_map_self (names : List String) (nm : String)
    (g : String → List (Option Int)) (h : nm ∈ names) :
    ((names.map (fun n => (n, g n))).lookup nm) = some (g nm) := by
  induction names with
  | nil => simp at h
  | cons n ns ih =>
    rw [List.map_cons, List.lookup_cons]
    by_cases he : nm = n
    · subst he
      simp
    · have hb : (nm == n) = false := by simpa using he
      rw [hb]
      apply ih
      rcases List.mem_cons.mp h with h3 | h3
      · exact absurd h3 he
      · exact h3

theorem lookup_eq_none_of_not_mem_keys (es : List (String × List Int)) (nm : String)
    (h : nm ∉ es.map Prod.fst) : es.lookup nm = none := by
  induction es with
  | nil => rfl
  | cons e es ih =>
    obtain ⟨k, v⟩ := e
    rw [List.lookup_cons]
    have hk : nm ≠ k := by
      intro he
      exact h (by simp [he])
    have hb : (nm == k) = false := by simpa using hk
    rw [hb]
    exact ih (fun hm => h (by simp [hm]))

/-- C8 counterexample: two records with mismatched variable sets (the second
lacks the variable `x`). Assembly does not fail: `xr_concat` returns a
merged record, with `x` NaN-filled over the rows of the second record — a
best-effort merge, contradicting the claimed `SchemaMismatchError`. -/
theorem xr_concat_mismatch_no_failure :
    "x" ∉ (VarRecord.mk 1 [("ctd_time", [3])]).vars.map Prod.fst
    ∧ "x" ∈ (VarRecord.mk 2 [("ctd_time", [1, 2]), ("x", [5, 6])]).vars.map Prod.fst
    ∧ xr_concat [VarRecord.mk 2 [("ctd_time", [1, 2]), ("x", [5, 6])],
        VarRecord.mk 1 [("ctd_time", [3])]] ≠ none
    ∧ ((xr_concat [VarRecord.mk 2 [("ctd_time", [1, 2]), ("x", [5, 6])],
          VarRecord.mk 1 [("ctd_time", [3])]]).getD (0, [])).2.lookup "x"
        = some [some 5, some 6, none] := by
  refine ⟨by decide, by decide, by decide, by rfl⟩

/-- C8 (amended): assembling records with mismatched variable sets does not
fail and produces no error: `xr_concat` returns a merged record whose
measurement axis is the sum of the input lengths, in which every variable
name appearing in any record is present as the concatenation of per-record
slices, and a record lacking a variable contributes a missing-value fill of
its own length. -/
theorem xr_concat_fills_missing_vars
    (recs : List VarRecord) (hne : recs ≠ [])
    (hmis : ∃ r1 ∈ recs, ∃ r2 ∈ recs, ∃ nm,
      nm ∈ r1.vars.map Prod.fst ∧ nm ∉ r2.vars.map Prod.fst) :
    ∃ out, xr_concat recs = some out
      ∧ out.1 = (recs.map VarRecord.len).sum
      ∧ (∀ nm ∈ allVarNames recs,
          out.2.lookup nm = some ((recs.map (fun r => fillVar r nm)).flatten))
      ∧ (∀ r ∈ recs, ∀ nm, nm ∉ r.vars.map Prod.fst →
          fillVar r nm = List.replicate r.len none) := by
  rcases recs with _ | ⟨r, rs⟩
  · exact absurd rfl hne
  · refine ⟨_, rfl, rfl, ?_, ?_⟩
    · intro nm hnm
      exact lookup_map_self _ nm _ hnm
    · intro r2 _ nm hnm
      unfold fillVar
      rw [lookup_eq_none_of_not_mem_keys r2.vars nm hnm]

/-- Witness for C8: record A of length 2 with variables ctd_time and x,
record B of length 1 with only ctd_time. -/
theorem xr_concat_fills_missing_vars_witness :
    ([VarRecord.mk 2 [("ctd_time", [1, 2]), ("x", [5, 6])],
      VarRecord.mk 1 [("ctd_time", [3])]] : List VarRecord) ≠ []
    ∧ (∃ r1 ∈ [VarRecord.mk 2 [("ctd_time", [1, 2]), ("x", [5, 6])],
          VarRecord.mk 1 [("ctd_time", [3])]],
        ∃ r2 ∈ [VarRecord.mk 2 [("ctd_time", [1, 2]), ("x", [5, 6])],
          VarRecord.mk 1 [("ctd_time", [3])]],
        ∃ nm, nm ∈ r1.vars.map Prod.fst ∧ nm ∉ r2.vars.map Prod.fst)
    ∧ (∃ out, xr_concat [VarRecord.mk 2 [("ctd_time", [1, 2]), ("x", [5, 6])],
          VarRecord.mk 1 [("ctd_time", [3])]] = some out
        ∧ out.1 = (([VarRecord.mk 2 [("ctd_time", [1, 2]), ("x", [5, 6])],
            VarRecord.mk 1 [("ctd_time", [3])]] : List VarRecord).map VarRecord.len).sum
        ∧ (∀ nm ∈ allVarNames [VarRecord.mk 2 [("ctd_time", [1, 2]), ("x", [5, 6])],
            VarRecord.mk 1 [("ctd_time", [3])]],
            out.2.lookup nm = some
              (([VarRecord.mk 2 [("ctd_time", [1, 2]), ("x", [5, 6])],
                VarRecord.mk 1 [("ctd_time", [3])]] : List VarRecord).map
                  (fun r => fillVar r nm)).flatten)
        ∧ (∀ r ∈ [VarRecord.mk 2 [("ctd_time", [1, 2]), ("x", [5, 6])],
            VarRecord.mk 1 [("ctd_time", [3])]],
            ∀ nm, nm ∉ r.vars.map Prod.fst →
              fillVar r nm = List.replicate r.len none)) :=
  ⟨by decide,
   ⟨VarRecord.mk 2 [("ctd_time", [1, 2]), ("x", [5, 6])], by decide,
    VarRecord.mk 1 [("ctd_time", [3])], by decide, "x", by decide, by decide⟩,
   xr_concat_fills_missing_vars
     [VarRecord.mk 2 [("ctd_time", [1, 2]), ("x", [5, 6])],
      VarRecord.mk 1 [("ctd_time", [3])]]
     (by decide)
     ⟨VarRecord.mk 2 [("ctd_time", [1, 2]), ("x", [5, 6])], by decide,
      VarRecord.mk 1 [("ctd_time", [3])], by decide, "x", by decide, by decide⟩⟩

/-! ## Claim C10 -/

/-- C10 (code bug in the source table): the dict literal contains the
mutually inverse pair dbar -> (Pa, 10000) and Pa -> (dbar, 1/10000), but
the duplicate key `dbar` (vocabularies.py line 38) silently overwrites the
former entry, so the evaluated table maps dbar to (kPa, 10): the key Pa
has target dbar with factor 1/10000, dbar is itself a key, yet the table
does not map dbar back to Pa with the inverse factor 10000. -/
theorem unit_conversion_pa_inverse_broken :
    ("dbar", ("Pa", (10000 : ℚ))) ∈ unit_conversion_entries
    ∧ unit_conversion "Pa" = some ("dbar", 1/10000)
    ∧ unit_conversion "dbar" = some ("kPa", 10)
    ∧ unit_conversion "dbar" ≠ some ("Pa", 10000)
    ∧ (1/10000 : ℚ) * 10000 = 1 := by
  refine ⟨by simp [unit_conversion_entries], rfl, rfl, ?_, by norm_num⟩
  intro h
  rw [show unit_conversion "dbar" = some ("kPa", 10) from rfl] at h
  simp at h
